import Mathlib

/-!
Verification development for the gdk PSBT/signer core
(src/ga_psbt.cpp, src/signer.cpp).

The C++ source is shallowly embedded: JSON objects become Lean structures
or association lists, `GDK_RUNTIME_ASSERT` (fatal abort) is modelled by an
`Option` result with `none` for the abort, and `throw user_error` is
modelled by `Except String`. Machine integers (satoshi amounts, path
components) are far below their 64/32-bit bounds in every operation
modelled here, so they are embedded as `Nat`/`Int`.
-/

namespace green

/-- Generic association-list lookup used to model `std::map::find` and
`wally_map_get_integer`; at most one entry per key is ever created by the
operations below, and lookup returns the first match. -/
def assocFind {κ α : Type} [DecidableEq κ] : List (κ × α) → κ → Option α
  | [], _ => none
  | (k, v) :: rest, key => if k = key then some v else assocFind rest key

/-! ## Signer model (src/signer.cpp) -/

/-- A BIP-32 derivation path, as the `std::vector<uint32_t>` of the source. -/
abbrev Path := List Nat

/-- Modelled from the spec: `is_hardened` (declared in a header not under
src/) tests the BIP-32 hardened bit of a `uint32_t` path component. -/
def is_hardened (c : Nat) : Bool := decide (0x80000000 ≤ c)

/-- Modelled from the spec: `harden` sets the BIP-32 hardened bit. -/
def harden (c : Nat) : Nat := c + 0x80000000

/-- signer::cache_bip32_xpub: `std::map::emplace` plus
`GDK_RUNTIME_ASSERT(ret.second || ret.first->second == bip32_xpub)`.
`none` models the fatal assertion; on success the pair carries whether a
new entry was inserted together with the updated cache. -/
def cache_bip32_xpub {α : Type} [DecidableEq α] (cache : List (Path × α)) (path : Path)
    (bip32_xpub : α) : Option (Bool × List (Path × α)) :=
  match assocFind cache path with
  | some v => if v = bip32_xpub then some (false, cache) else none
  | none => some (true, cache ++ [(path, bip32_xpub)])

/-- The cache-walk loop of signer::has_bip32_xpub. The argument is the
reversed remaining `parent_path`, so that `pop_back` of the source is the
structural tail here. -/
def hasXpubLoop {α : Type} (cache : List (Path × α)) : List Nat → Bool
  | [] => (assocFind cache []).isSome
  | c :: rest =>
    if (assocFind cache ((c :: rest).reverse)).isSome then true
    else if is_hardened c then false
    else hasXpubLoop cache rest

/-- signer::has_bip32_xpub: true when a master key is held, otherwise walk
the cache from the full path toward the root. -/
def has_bip32_xpub {μ α : Type} (m_master_key : Option μ) (cache : List (Path × α))
    (path : Path) : Bool :=
  if m_master_key.isSome then true
  else hasXpubLoop cache path.reverse

/-- Modelled from the spec: the BIP-32 primitives
(`bip32_key_from_parent_path_alloc`, `bip32_key_serialize`,
`base58check_from_bytes`, `bip32_public_key_from_bip32_xpub`) live in the
external wally library, not in this repository. An extended key is
modelled by its absolute derivation path from the master key; public
derivation appends the relative path, serialisation to an xpub is the
identity, and parsing an xpub recovers the key. This keeps derivation
functional and injective, which is all the cache logic relies on. -/
abbrev ExtKey := Path

/-- Public child derivation (wally `bip32_key_from_parent_path_alloc`). -/
def derivePub (k : ExtKey) (path : Path) : ExtKey := k ++ path

/-- Serialisation of a public key to its base58 xpub string (modelled). -/
def serializeXpub (k : ExtKey) : Path := k

/-- Parsing an xpub back to an extended public key (modelled). -/
def xpubToKey (x : Path) : ExtKey := x

/-- The mutable signer state relevant to key derivation:
`m_master_key` and `m_cached_bip32_xpubs`. -/
structure KeyState where
  m_master_key : Option ExtKey
  m_cached_bip32_xpubs : List (Path × Path)
deriving DecidableEq

/-- signer::cache_ext_key: `GDK_RUNTIME_ASSERT(hdkey)` (modelled by
`none`), serialise the key and cache it under `path`, returning the xpub
and the updated cache. -/
def cache_ext_key (cache : List (Path × Path)) (path : Path) (hdkey : Option ExtKey) :
    Option (Path × List (Path × Path)) :=
  match hdkey with
  | none => none
  | some k =>
    (cache_bip32_xpub cache path (serializeXpub k)).map fun r => (serializeXpub k, r.2)

/-- The cache-walk loop of signer::get_bip32_xpub: the first argument is
the reversed remaining `parent_path`, the second the accumulated
`child_path`. Returns the cached parent xpub (when a cache hit stopped the
walk), the final `parent_path` and the final `child_path`. -/
def getXpubWalk (cache : List (Path × Path)) : List Nat → Path → Option Path × Path × Path
  | [], child_path => (assocFind cache [], [], child_path)
  | c :: rest, child_path =>
    match assocFind cache ((c :: rest).reverse) with
    | some x => (some x, (c :: rest).reverse, child_path)
    | none =>
      if is_hardened c then (none, (c :: rest).reverse, child_path)
      else getXpubWalk cache rest (c :: child_path)

/-- The body of signer::get_bip32_xpub after the cache-walk loop, taking
the walk results as arguments. `none` models a fatal
`GDK_RUNTIME_ASSERT` (no master key when one is required, or a cache
conflict). On success the result carries the returned xpub, the updated
state, and whether the master key was used (derived from or serialised)
during the call. -/
def get_bip32_xpub_core (st : KeyState) (path : Path) (hit : Option Path)
    (parent_path child_path : Path) : Option (Path × KeyState × Bool) :=
  if hit.isSome ∧ child_path = [] then
    -- Found the full derived key in the cache, return it
    hit.map fun x => (x, st, false)
  else if path = [] then
    -- Master xpub requested: encache and return it
    (cache_ext_key st.m_cached_bip32_xpubs [] st.m_master_key).map fun r =>
      (r.1, ⟨st.m_master_key, r.2⟩, true)
  else
    match
      (if parent_path ≠ [] ∧ hit = none then
        -- Derive and encache the parent key from the master key
        match st.m_master_key with
        | none => none
        | some m =>
          (cache_ext_key st.m_cached_bip32_xpubs parent_path
            (some (derivePub m parent_path))).map fun r =>
              (some (derivePub m parent_path), r.2, true)
      else
        some (hit.map xpubToKey, st.m_cached_bip32_xpubs, false) :
        Option (Option ExtKey × List (Path × Path) × Bool))
    with
    | none => none
    | some (pk, cache1, used_master) =>
      match (match pk with | some k => some k | none => st.m_master_key) with
      | none => none
      | some root_key =>
        if child_path = [] then
          -- Return our root key, which is already cached
          some (serializeXpub root_key, ⟨st.m_master_key, cache1⟩, used_master || pk.isNone)
        else
          -- Derive, encache and return the child key from the root key
          (cache_ext_key cache1 path (some (derivePub root_key child_path))).map fun r =>
            (r.1, ⟨st.m_master_key, r.2⟩, used_master || pk.isNone)

/-- signer::get_bip32_xpub: run the cache-walk loop, then the body. -/
def get_bip32_xpub (st : KeyState) (path : Path) : Option (Path × KeyState × Bool) :=
  get_bip32_xpub_core st path (getXpubWalk st.m_cached_bip32_xpubs path.reverse []).1
    (getXpubWalk st.m_cached_bip32_xpubs path.reverse []).2.1
    (getXpubWalk st.m_cached_bip32_xpubs path.reverse []).2.2

/-- Device capability descriptor level `supports_liquid`. The enumerators
live in a header not under src/; from the spec:
`supports_liquid ∈ {none, lite, full}`. -/
inductive liquid_support_level
  | none
  | lite
  | full
deriving DecidableEq

/-- Device capability descriptor level `supports_ae_protocol`. From the
spec: `supports_ae_protocol ∈ {none, …}`. -/
inductive ae_protocol_support_level
  | none
  | optional
  | mandatory
deriving DecidableEq

/-- The resolved device capability descriptor (`m_device`), after
`get_device_json` has filled every capability in. -/
structure device_json where
  device_type : String
  supports_low_r : Bool
  supports_arbitrary_scripts : Bool
  supports_host_unblinding : Bool
  supports_external_blinding : Bool
  supports_liquid : liquid_support_level
  supports_ae_protocol : ae_protocol_support_level
deriving DecidableEq

/-- signer::get_liquid_support: `m_device.at("supports_liquid")`. -/
def get_liquid_support (d : device_json) : liquid_support_level := d.supports_liquid

/-- The liquid-capability check of the signer constructor (signer.cpp
lines 165-167): on a liquid network, a device with `supports_liquid ==
none` is rejected with a user_error. -/
def signer_liquid_check (m_is_liquid : Bool) (d : device_json) : Except String Unit :=
  if m_is_liquid = true ∧ get_liquid_support d = liquid_support_level.none then
    Except.error "id_the_hardware_wallet_you_are"
  else Except.ok ()

/-- Modelled from the spec: `b2h` (hex encoding of bytes, external wally
helper). Any injective encoding suffices for the equality comparisons the
source performs on its output. -/
def b2h (bytes : List Nat) : String := toString bytes

/-- JSON object key removal (nlohmann `erase`). nlohmann objects are
unordered maps, modelled as association lists compared entry-wise; all
comparisons below apply the same canonical operations to both sides. -/
def json_erase (m : List (String × String)) (k : String) : List (String × String) :=
  m.filter fun p => decide (p.1 ≠ k)

/-- JSON object key assignment (nlohmann `operator[]=`), canonicalised for
the unordered-map model. -/
def json_set (m : List (String × String)) (k v : String) : List (String × String) :=
  (k, v) :: json_erase m k

/-- The signer state relevant to credentials and compatibility. -/
structure SignerCreds where
  m_is_liquid : Bool
  m_device : device_json
  m_credentials : List (String × String)
  m_master_blinding_key : Option (List Nat)
deriving DecidableEq

/-- signer::get_credentials: the sanitised credentials, with
`master_blinding_key` (hex of the last 32 of the 64 key bytes) added when
liquid and known. -/
def get_credentials (s : SignerCreds) : List (String × String) :=
  if s.m_is_liquid = true then
    match s.m_master_blinding_key with
    | some key => json_set s.m_credentials "master_blinding_key" (b2h (key.drop 32))
    | none => s.m_credentials
  else s.m_credentials

/-- signer::is_compatible_with: equal devices, and equal credentials once
`master_blinding_key` has been erased from each side. -/
def is_compatible_with (a b : SignerCreds) : Bool :=
  if a.m_device = b.m_device then
    decide (json_erase (get_credentials a) "master_blinding_key"
      = json_erase (get_credentials b) "master_blinding_key")
  else false

/-- Length `SHA512_LEN` of a full master blinding key. -/
def SHA512_LEN : Nat := 64

/-- signer::set_master_blinding_key, over the decoded key bytes (`h2b` of
the hex argument; the empty hex string decodes to `[]`). `none` models the
fatal length assertion; otherwise the new value of
`m_master_blinding_key` is returned. -/
def set_master_blinding_key (m_master_blinding_key : Option (List Nat))
    (key_bytes : List Nat) : Option (Option (List Nat)) :=
  if key_bytes.isEmpty then some m_master_blinding_key
  else if key_bytes.length = SHA512_LEN ∨ key_bytes.length = SHA512_LEN / 2 then
    -- blinding_key_t key{ 0 }; copy into the tail of the zeroed buffer
    some (some (List.replicate (SHA512_LEN - key_bytes.length) 0 ++ key_bytes))
  else none

/-! ## Psbt codec model (src/ga_psbt.cpp constructor and to_base64) -/

/-- Modelled from the spec: the wally PSBT container. The base64 wire
format is bit-exact, so the wire is modelled by the container itself;
`wally_psbt_set_version` rewrites only the version field, and the
base64 codec primitives are mutually inverse. Field contents are opaque
tagged byte strings. -/
structure WallyPsbt where
  version : Nat
  is_elements : Bool
  contents : List (Nat × List Nat)
deriving DecidableEq

/-- Modelled from the spec: `wally_psbt_set_version`. -/
def wally_psbt_set_version (v : Nat) (p : WallyPsbt) : WallyPsbt := { p with version := v }

/-- Modelled from the spec: `wally_psbt_to_base64` (bit-exact wire). The
`include_redundant` flag selects between two equivalent encodings of the
same container and does not change what parses back. -/
def wally_psbt_to_base64 (p : WallyPsbt) (_include_redundant : Bool) : WallyPsbt := p

/-- Modelled from the spec: `wally_psbt_from_base64`. -/
def wally_psbt_from_base64 (wire : WallyPsbt) : WallyPsbt := wire

/-- Constant `WALLY_PSBT_VERSION_2`. -/
def WALLY_PSBT_VERSION_2 : Nat := 2

/-- The in-memory Psbt object: version-2 normalised container plus the
remembered original version and network flavour. -/
structure Psbt where
  m_original_version : Nat
  m_is_liquid : Bool
  m_psbt : WallyPsbt
deriving DecidableEq

/-- The parsing constructor Psbt::Psbt(base64, is_liquid): check the
Elements flag against `is_liquid`, remember the on-wire version and
upgrade the container to version 2. -/
def Psbt.parse (wire : WallyPsbt) (is_liquid : Bool) : Except String Psbt :=
  let p := wally_psbt_from_base64 wire
  if is_liquid ≠ p.is_elements then Except.error "PSBT/PSET mismatch"
  else
    Except.ok
      { m_original_version := p.version
        m_is_liquid := is_liquid
        m_psbt := wally_psbt_set_version WALLY_PSBT_VERSION_2 p }

/-- Psbt::to_base64: when the original version was not 2, clone and
downgrade before serialising. -/
def Psbt.to_base64 (self : Psbt) (include_redundant : Bool) : WallyPsbt :=
  let psbt :=
    if self.m_original_version ≠ WALLY_PSBT_VERSION_2 then
      wally_psbt_set_version self.m_original_version self.m_psbt
    else self.m_psbt
  wally_psbt_to_base64 psbt include_redundant

/-! ## get_details fee check (src/ga_psbt.cpp lines 251-308) -/

/-- One entry of `transaction_inputs` as read by the summing loop of
Psbt::get_details: `j_str_or_empty(input, "error")`,
`j_bool_or_false(input, "skip_signing")`, `j_assetref` and `j_amountref`. -/
structure TxInputJson where
  error : String
  skip_signing : Bool
  asset_id : String
  satoshi : Nat
deriving DecidableEq

/-- One entry of `transaction_outputs` as read by the summing loop. -/
structure TxOutputJson where
  asset_id : String
  satoshi : Nat
  scriptpubkey : String
deriving DecidableEq

/-- The input loop of Psbt::get_details (lines 262-276): accumulates
(`sum`, `error`, `use_error`). An input with a recorded error overwrites
`error`, raises `use_error` when it is not being skipped, and contributes
nothing to `sum`; otherwise a policy-asset input adds its satoshi. -/
def sumInputsStep (m_is_liquid : Bool) (policy_asset : String) (acc : Int × String × Bool)
    (input : TxInputJson) : Int × String × Bool :=
  if input.error ≠ "" then
    (acc.1, input.error, acc.2.2 || !input.skip_signing)
  else if m_is_liquid = false ∨ input.asset_id = policy_asset then
    (acc.1 + input.satoshi, acc.2.1, acc.2.2)
  else acc

def sumInputs (m_is_liquid : Bool) (policy_asset : String) (inputs : List TxInputJson) :
    Int × String × Bool :=
  inputs.foldl (sumInputsStep m_is_liquid policy_asset) (0, "", false)

/-- The output loop of Psbt::get_details (lines 277-285): threads `sum`
and accumulates `explicit_fee` from liquid empty-script policy outputs. -/
def sumOutputsStep (m_is_liquid : Bool) (policy_asset : String) (acc : Int × Int)
    (txout : TxOutputJson) : Int × Int :=
  if m_is_liquid = false ∨ txout.asset_id = policy_asset then
    if m_is_liquid = true ∧ txout.scriptpubkey = "" then (acc.1, acc.2 + txout.satoshi)
    else (acc.1 - txout.satoshi, acc.2)
  else acc

def sumOutputs (m_is_liquid : Bool) (policy_asset : String) (outputs : List TxOutputJson)
    (sum0 : Int) : Int × Int :=
  outputs.foldl (sumOutputsStep m_is_liquid policy_asset) (sum0, 0)

/-- The fee-check portion of Psbt::get_details: run both loops, apply
`GDK_RUNTIME_ASSERT(!m_is_liquid || sum == explicit_fee || !error.empty())`
(`none` models the fatal assertion), and return the reported `fee`
together with the elevated top-level error, if any. -/
def get_details_fee_check (m_is_liquid : Bool) (policy_asset : String)
    (inputs : List TxInputJson) (outputs : List TxOutputJson) : Option (Int × Option String) :=
  let s := sumInputs m_is_liquid policy_asset inputs
  let so := sumOutputs m_is_liquid policy_asset outputs s.1
  if m_is_liquid = false ∨ so.1 = so.2 ∨ s.2.1 ≠ "" then
    some (if m_is_liquid then so.2 else so.1, if s.2.2 then some s.2.1 else none)
  else none

/-- Sum of policy-asset satoshi over error-free inputs, as the claim
states it. -/
def claimInputSum (policy_asset : String) (inputs : List TxInputJson) : Int :=
  ((inputs.filter fun i => decide (i.error = "" ∧ i.asset_id = policy_asset)).map
    fun i => (i.satoshi : Int)).sum

/-- Sum of policy-asset satoshi over non-fee (non-empty-script) outputs. -/
def claimOutputSum (policy_asset : String) (outputs : List TxOutputJson) : Int :=
  ((outputs.filter fun o => decide (o.asset_id = policy_asset ∧ o.scriptpubkey ≠ "")).map
    fun o => (o.satoshi : Int)).sum

/-- Sum of policy-asset satoshi over empty-script (fee) outputs. -/
def claimFeeSum (policy_asset : String) (outputs : List TxOutputJson) : Int :=
  ((outputs.filter fun o => decide (o.asset_id = policy_asset ∧ o.scriptpubkey = "")).map
    fun o => (o.satoshi : Int)).sum

/-! ## Multisig change heuristic (src/ga_psbt.cpp lines 407-522) -/

/-- One enriched output as seen by the change-detection code of
Psbt::outputs_to_json: its user-facing asset id, whether
`get_scriptpubkey_data` classified it as a wallet output, and whether the
enrichment loop executed `continue` before reaching change detection (the
unblinded liquid fee output, and wallet liquid outputs that failed to
unblind, are skipped that way). -/
structure OutputInfo where
  asset_id : String
  is_wallet : Bool
  skipped : Bool
deriving DecidableEq

/-- Append an index to the entry of `asset_id`
(`asset_outputs[asset_id].push_back(i)`), creating the entry when absent. Entry order in the model is
first-appearance order; the per-entry updates applied below are
independent, so map iteration order does not affect the result. -/
def pushIdx (m : List (String × List Nat)) (a : String) (i : Nat) : List (String × List Nat) :=
  match m with
  | [] => [(a, [i])]
  | (k, v) :: rest => if k = a then (k, v ++ [i]) :: rest else (k, v) :: pushIdx rest a i

/-- Append further indices to an optional map entry: `none` stays `none`
only when nothing is appended (proof helper for the collection fold). -/
def entryApp (cur : Option (List Nat)) (l : List Nat) : Option (List Nat) :=
  match cur, l with
  | some v, l => some (v ++ l)
  | none, [] => none
  | none, l => some l

/-- One step of the change-detection collection (lines 492-501): for an
output of an asset the wallet funded that was not skipped, a wallet output
is collected by index under its asset and a non-wallet output marks the
asset as spent externally. -/
def collectStep (wallet_assets : List String) (acc : List (String × List Nat) × List String) :
    Nat × OutputInfo → List (String × List Nat) × List String
  | (i, o) =>
    if o.skipped then acc
    else if o.asset_id ∈ wallet_assets then
      if o.is_wallet then (pushIdx acc.1 o.asset_id i, acc.2)
      else (acc.1, if o.asset_id ∈ acc.2 then acc.2 else acc.2 ++ [o.asset_id])
    else acc

/-- The change-detection collection of the output loop, over the
enumerated outputs. -/
def collectAssetOutputs (wallet_assets : List String) (outputs : List OutputInfo) :
    List (String × List Nat) × List String :=
  outputs.enum.foldl (collectStep wallet_assets) ([], [])

/-- Set `is_change` on entry `i` of the enriched output list; positions
past the end are left unchanged (the source indices are always in range). -/
def setChangeAt : List (OutputInfo × Option Bool) → Nat → Bool → List (OutputInfo × Option Bool)
  | [], _, _ => []
  | o :: rest, 0, b => (o.1, some b) :: rest
  | o :: rest, Nat.succ n, b => o :: setChangeAt rest n b

/-- One step of the multisig change-detection loop (lines 505-519): for a
collected asset entry, mark its first wallet output with
`is_change = (spent externally || more than one wallet output)`. -/
def applyStep (wallet_assets spent_assets : List String)
    (outs : List (OutputInfo × Option Bool)) (entry : String × List Nat) :
    List (OutputInfo × Option Bool) :=
  if entry.1 ∈ wallet_assets then
    match entry.2 with
    | [] => outs -- never occurs: collected entries always hold an index
    | i :: rest =>
      setChangeAt outs i (decide (entry.1 ∈ spent_assets) || decide ((i :: rest).length > 1))
  else outs

/-- The multisig change-detection loop (lines 503-520) applied to the
enriched outputs. Each output starts without an `is_change` key (`none`);
the collected entries are processed in first-appearance order (the
source's `std::map` order differs, but the per-entry updates are
independent, so the result does not depend on the order). -/
def applyChangeHeuristic (wallet_assets : List String) (outputs : List OutputInfo) :
    List (OutputInfo × Option Bool) :=
  let c := collectAssetOutputs wallet_assets outputs
  c.1.foldl (applyStep wallet_assets c.2) (outputs.map fun o => (o, none))

/-- Indices of the non-skipped wallet outputs carrying asset `a`, starting
at offset `n`: the contents of `asset_outputs[a]`. -/
def wIdxs (a : String) : Nat → List OutputInfo → List Nat
  | _, [] => []
  | n, o :: rest =>
    if o.skipped = false ∧ o.is_wallet = true ∧ o.asset_id = a then n :: wIdxs a (n + 1) rest
    else wIdxs a (n + 1) rest

/-- Whether asset `a` is sent externally: it appears on a non-skipped
non-wallet output. -/
def spentExternally (outputs : List OutputInfo) (a : String) : Bool :=
  outputs.any fun o => !o.skipped && !o.is_wallet && decide (o.asset_id = a)

/-- The effective `is_change` of entry `i` of an enriched output list: a
missing key reads as `false` (`j_bool_or_false`). -/
def effectiveChange (outs : List (OutputInfo × Option Bool)) (i : Nat) : Bool :=
  match outs.get? i with
  | some o => o.2.getD false
  | none => false

/-! ## Non-wallet input enrichment (src/ga_psbt.cpp lines 324-405) -/

/-- PSET input field constants. -/
def in_redeem_script : Nat := 0x04
def in_value_proof : Nat := 0x12
def in_explicit_asset : Nat := 0x13
def in_asset_proof : Nat := 0x14

/-- The wally PSBT input fields read by the non-wallet branch of
Psbt::inputs_to_json. -/
structure PsbtInputModel where
  has_amount : Bool
  amount : Nat
  pset_fields : List (Nat × List Nat)
  psbt_fields : List (Nat × List Nat)
deriving DecidableEq

/-- The JSON produced for a non-wallet input. Hex strings are modelled by
the byte lists they encode (`b2h_rev` by the reversed list). -/
structure NonWalletInputJson where
  skip_signing : Bool
  satoshi : Option Nat
  asset_id : Option (List Nat)
  value_blind_proof : Option (List Nat)
  asset_blind_proof : Option (List Nat)
  error : String
  redeem_script : Option (List Nat)
deriving DecidableEq

/-- set_pset_field: look the tag up in `pset_fields` and throw
`user_error(key + " not found")` when absent. -/
def set_pset_field (fields : List (Nat × List Nat)) (key : String) (k : Nat) :
    Except String (List Nat) :=
  match assocFind fields k with
  | none => Except.error (key ++ " not found")
  | some v => Except.ok v

/-- The non-wallet branch of Psbt::inputs_to_json (lines 382-402):
`skip_signing` is set, the satoshi amount comes from the best-known UTXO
(non-liquid) or the explicit PSET amount (liquid, requiring the explicit
asset and both proofs via set_pset_field, which throws when one is
missing); an input without an explicit amount is marked with the unblind
error; any redeem script is surfaced. -/
def nonwallet_input_to_json (m_is_liquid : Bool) (txin_utxo_satoshi : Nat)
    (psbt_input : PsbtInputModel) : Except String NonWalletInputJson :=
  let redeem := assocFind psbt_input.psbt_fields in_redeem_script
  if m_is_liquid = false then
    Except.ok
      { skip_signing := true, satoshi := some txin_utxo_satoshi, asset_id := none
        value_blind_proof := none, asset_blind_proof := none, error := ""
        redeem_script := redeem }
  else if psbt_input.has_amount then do
    let a ← set_pset_field psbt_input.pset_fields "asset_id" in_explicit_asset
    let vp ← set_pset_field psbt_input.pset_fields "value_blind_proof" in_value_proof
    let ap ← set_pset_field psbt_input.pset_fields "asset_blind_proof" in_asset_proof
    Except.ok
      { skip_signing := true, satoshi := some psbt_input.amount, asset_id := some a.reverse
        value_blind_proof := some vp, asset_blind_proof := some ap, error := ""
        redeem_script := redeem }
  else
    Except.ok
      { skip_signing := true, satoshi := none, asset_id := none
        value_blind_proof := none, asset_blind_proof := none
        error := "failed to unblind utxo", redeem_script := redeem }

/-- The fresh software-signer key state of scenario S5: a master key and
an empty cache. -/
def s5_state0 : KeyState := ⟨some [], []⟩

/-- The first path of scenario S5, `[84h, 0h, 0h, 0, 5]`. -/
def s5_path1 : Path := [0x80000054, 0x80000000, 0x80000000, 0, 5]

/-- The second path of scenario S5, `[84h, 0h, 0h, 0, 6]`. -/
def s5_path2 : Path := [0x80000054, 0x80000000, 0x80000000, 0, 6]

/-- The hardened parent `[84h, 0h, 0h]` of both scenario paths. -/
def s5_parent : Path := [0x80000054, 0x80000000, 0x80000000]

/-! ## Helper lemmas -/

theorem assocFind_append {κ α : Type} [DecidableEq κ] (c l : List (κ × α)) (k : κ) :
    assocFind (c ++ l) k = ((assocFind c k).rec (assocFind l k) fun v => some v) := by
  induction c with
  | nil => simp [assocFind]
  | cons h t ih =>
    obtain ⟨k', v⟩ := h
    by_cases hk : k' = k <;> simp [assocFind, hk, ih]

theorem cache_bip32_xpub_find {α : Type} [DecidableEq α] (c : List (Path × α)) (p : Path)
    (x : α) (r : Bool × List (Path × α)) (h : cache_bip32_xpub c p x = some r) :
    assocFind r.2 p = some x := by
  unfold cache_bip32_xpub at h
  cases hf : assocFind c p with
  | some v =>
    rw [hf] at h
    by_cases hv : v = x
    · subst hv
      simp at h
      rw [← h]
      simpa using hf
    · simp [hv] at h
  | none =>
    rw [hf] at h
    simp at h
    rw [← h, assocFind_append, hf]
    simp [assocFind]

/-! ## C10: set_master_blinding_key -/

/-- C10: `set_master_blinding_key` leaves the stored key unchanged on an
empty hex string, stores a 64-byte key verbatim, left-pads a 32-byte key
with 32 zero bytes, and aborts (fatal assertion) on any other decoded
length. -/
theorem set_master_blinding_key_spec (st : Option (List Nat)) (key_bytes : List Nat) :
    (key_bytes = [] → set_master_blinding_key st key_bytes = some st)
    ∧ (key_bytes.length = 64 → set_master_blinding_key st key_bytes = some (some key_bytes))
    ∧ (key_bytes.length = 32 →
        set_master_blinding_key st key_bytes
          = some (some (List.replicate 32 0 ++ key_bytes)))
    ∧ (key_bytes ≠ [] → key_bytes.length ≠ 64 → key_bytes.length ≠ 32 →
        set_master_blinding_key st key_bytes = none) := by
  refine ⟨?_, ?_, ?_, ?_⟩
  · intro h
    subst h
    simp [set_master_blinding_key]
  · intro h
    have hne : key_bytes.isEmpty = false := by
      cases key_bytes with
      | nil => simp at h
      | cons a l => rfl
    simp [set_master_blinding_key, SHA512_LEN, hne, h]
  · intro h
    have hne : key_bytes.isEmpty = false := by
      cases key_bytes with
      | nil => simp at h
      | cons a l => rfl
    simp [set_master_blinding_key, SHA512_LEN, hne, h]
  · intro h0 h64 h32
    have hne : key_bytes.isEmpty = false := by
      cases key_bytes with
      | nil => exact absurd rfl h0
      | cons a l => rfl
    simp [set_master_blinding_key, SHA512_LEN, hne, h64, h32]

/-- Witness for C10 on a concrete 32-byte key. -/
theorem set_master_blinding_key_spec_witness :
    set_master_blinding_key (some (List.replicate 64 7)) (List.replicate 32 1)
      = some (some (List.replicate 32 0 ++ List.replicate 32 1)) :=
  (set_master_blinding_key_spec (some (List.replicate 64 7)) (List.replicate 32 1)).2.2.1
    (by simp)

/-! ## C8: liquid capability check at signer construction -/

/-- C8: on a liquid network, signer construction fails with a user_error
exactly when the resolved device descriptor has `supports_liquid = none`,
and passes this check for every other level. -/
theorem signer_liquid_check_spec (d : device_json) :
    (signer_liquid_check true d = Except.error "id_the_hardware_wallet_you_are"
        ↔ d.supports_liquid = liquid_support_level.none)
    ∧ (signer_liquid_check true d = Except.ok ()
        ↔ d.supports_liquid ≠ liquid_support_level.none) := by
  unfold signer_liquid_check get_liquid_support
  by_cases h : d.supports_liquid = liquid_support_level.none <;> simp [h]

/-! ## C9: signer compatibility -/

theorem json_erase_set (m : List (String × String)) (k v : String) :
    json_erase (json_set m k v) k = json_erase m k := by
  simp [json_set, json_erase, List.filter_filter]

theorem json_erase_get_credentials (s : SignerCreds) :
    json_erase (get_credentials s) "master_blinding_key"
      = json_erase s.m_credentials "master_blinding_key" := by
  unfold get_credentials
  by_cases hl : s.m_is_liquid = true
  · cases s.m_master_blinding_key with
    | none => simp [hl]
    | some key => simp [hl, json_erase_set]
  · simp [hl]

/-- C9: two signers are compatible exactly when their device descriptors
are equal and their credentials, with the `master_blinding_key` entry
removed from each, are equal; in particular any difference in the device
descriptor (such as a flipped capability flag) breaks compatibility. -/
theorem is_compatible_with_spec (a b : SignerCreds) :
    (is_compatible_with a b = true
        ↔ a.m_device = b.m_device
          ∧ json_erase a.m_credentials "master_blinding_key"
              = json_erase b.m_credentials "master_blinding_key")
    ∧ (a.m_device ≠ b.m_device → is_compatible_with a b = false) := by
  unfold is_compatible_with
  by_cases h : a.m_device = b.m_device <;>
    simp [h, json_erase_get_credentials]

/-- Witness for C9 at two concrete compatible signers. -/
theorem is_compatible_with_spec_witness :
    is_compatible_with
        ⟨true, ⟨"software", true, true, true, true, liquid_support_level.lite,
          ae_protocol_support_level.none⟩, [("seed", "00")], some (List.replicate 64 1)⟩
        ⟨true, ⟨"software", true, true, true, true, liquid_support_level.lite,
          ae_protocol_support_level.none⟩, [("seed", "00")], none⟩
      = true :=
  (is_compatible_with_spec _ _).1.mpr ⟨rfl, rfl⟩

/-! ## C4: PSBT version round-trip -/

/-- C4: parsing records the on-wire version while normalising the
container to version 2; serialising restores the original version
(downgrading when it was not 2), and re-parsing the serialised form gives
back the same parsed object, original version included. -/
theorem psbt_version_roundtrip (wire : WallyPsbt) (is_liquid rd : Bool) (P : Psbt)
    (hv : wire.version = 0 ∨ wire.version = 2)
    (hp : Psbt.parse wire is_liquid = Except.ok P) :
    P.m_original_version = wire.version
    ∧ (P.to_base64 rd).version = wire.version
    ∧ Psbt.parse (P.to_base64 rd) is_liquid = Except.ok P := by
  unfold Psbt.parse wally_psbt_from_base64 at hp
  by_cases hL : is_liquid ≠ wire.is_elements
  · simp [hL] at hp
  · simp only [hL, if_false] at hp
    have hP : P = ⟨wire.version, is_liquid, wally_psbt_set_version WALLY_PSBT_VERSION_2 wire⟩ := by
      cases hp
      rfl
    have hser : P.to_base64 rd = wire := by
      subst hP
      unfold Psbt.to_base64 wally_psbt_to_base64 wally_psbt_set_version WALLY_PSBT_VERSION_2
      rcases hv with h0 | h2 <;> cases wire <;> simp_all
    refine ⟨by rw [hP], by rw [hser], ?_⟩
    rw [hser]
    unfold Psbt.parse wally_psbt_from_base64
    simp only [hL, if_false]
    rw [hP]

/-- Witness for C4 on a concrete version-0 non-liquid PSBT. -/
theorem psbt_version_roundtrip_witness :
    Psbt.parse ((⟨0, false, ⟨2, false, [(1, [2])]⟩⟩ : Psbt).to_base64 true) false
      = Except.ok ⟨0, false, ⟨2, false, [(1, [2])]⟩⟩ :=
  (psbt_version_roundtrip ⟨0, false, [(1, [2])]⟩ false true
    ⟨0, false, ⟨2, false, [(1, [2])]⟩⟩ (Or.inl rfl) rfl).2.2

/-! ## C6: has_bip32_xpub characterisation -/

theorem hasXpubLoop_iff {α : Type} (cache : List (Path × α)) (r : List Nat) :
    hasXpubLoop cache r = true
      ↔ ∃ sr pr : List Nat, r = sr ++ pr ∧ (assocFind cache pr.reverse).isSome = true
          ∧ ∀ c ∈ sr, is_hardened c = false := by
  induction r with
  | nil =>
    constructor
    · intro h
      exact ⟨[], [], rfl, by simpa [hasXpubLoop] using h, by simp⟩
    · rintro ⟨sr, pr, hsplit, hfind, -⟩
      rcases List.append_eq_nil.mp hsplit.symm with ⟨h1, h2⟩
      subst h1; subst h2
      simpa [hasXpubLoop] using hfind
  | cons c rest ih =>
    constructor
    · intro h
      unfold hasXpubLoop at h
      by_cases hfd : (assocFind cache ((c :: rest).reverse)).isSome = true
      · exact ⟨[], c :: rest, rfl, by simpa using hfd, by simp⟩
      · rw [if_neg hfd] at h
        cases hh : is_hardened c
        · rw [hh] at h
          simp only [Bool.false_eq_true, if_false] at h
          obtain ⟨sr, pr, heq, hfind, hall⟩ := ih.mp h
          refine ⟨c :: sr, pr, by rw [heq, List.cons_append], hfind, ?_⟩
          intro d hd
          rcases List.mem_cons.mp hd with hd | hd
          · rwa [hd]
          · exact hall d hd
        · rw [hh] at h
          simp at h
    · rintro ⟨sr, pr, hsplit, hfind, hall⟩
      cases sr with
      | nil =>
        simp only [List.nil_append] at hsplit
        subst hsplit
        unfold hasXpubLoop
        rw [if_pos hfind]
      | cons s0 stl =>
        rw [List.cons_append] at hsplit
        injection hsplit with hc hrest
        subst hc
        unfold hasXpubLoop
        by_cases hfd : (assocFind cache ((c :: rest).reverse)).isSome = true
        · rw [if_pos hfd]
        · rw [if_neg hfd, hall c (List.mem_cons_self c stl)]
          simp only [Bool.false_eq_true, if_false]
          exact ih.mpr ⟨stl, pr, hrest, hfind, fun d hd => hall d (List.mem_cons_of_mem _ hd)⟩

/-- C6: `has_bip32_xpub(path)` is true exactly when the signer holds a
master key, or the cache holds `path` itself (the split with `s = []`), or
the cache holds a proper prefix of `path` and every component removed
after that prefix is non-hardened; otherwise it is false. -/
theorem has_bip32_xpub_spec (m_master_key : Option ExtKey) (cache : List (Path × Path))
    (path : Path) :
    has_bip32_xpub m_master_key cache path = true
      ↔ m_master_key.isSome = true
        ∨ ∃ p s : Path, path = p ++ s ∧ (assocFind cache p).isSome = true
            ∧ ∀ c ∈ s, is_hardened c = false := by
  unfold has_bip32_xpub
  by_cases hm : m_master_key.isSome = true
  · simp [hm]
  · rw [if_neg hm, hasXpubLoop_iff]
    constructor
    · rintro ⟨sr, pr, hsplit, hfind, hall⟩
      refine Or.inr ⟨pr.reverse, sr.reverse, ?_, hfind, ?_⟩
      · have h2 := congrArg List.reverse hsplit
        simpa [List.reverse_append] using h2
      · intro d hd
        exact hall d (by simpa using hd)
    · rintro (hm' | ⟨p, s, hsplit, hfind, hall⟩)
      · exact absurd hm' hm
      · refine ⟨s.reverse, p.reverse, ?_, by simpa using hfind, ?_⟩
        · rw [hsplit]
          simp [List.reverse_append]
        · intro d hd
          exact hall d (by simpa using hd)

/-! ## C7: cache conflicts and stability of get_bip32_xpub -/

theorem getXpubWalk_eq (cache : List (Path × Path)) (pr : List Nat) :
    ∀ child : List Nat,
      (getXpubWalk cache pr child).2.1 ++ (getXpubWalk cache pr child).2.2
          = pr.reverse ++ child
      ∧ ∀ x, (getXpubWalk cache pr child).1 = some x →
          assocFind cache (getXpubWalk cache pr child).2.1 = some x := by
  induction pr with
  | nil =>
    intro child
    refine ⟨by simp [getXpubWalk], ?_⟩
    intro x h
    simpa [getXpubWalk] using h
  | cons c rest ih =>
    intro child
    unfold getXpubWalk
    cases hf : assocFind cache ((c :: rest).reverse) with
    | some x =>
      refine ⟨by simp, ?_⟩
      intro y h
      simp only at h
      rw [hf]
      simpa using h
    | none =>
      cases hh : is_hardened c
      · simp only [Bool.false_eq_true, if_false]
        refine ⟨?_, (ih (c :: child)).2⟩
        rw [(ih (c :: child)).1]
        simp
      · simp only [if_true]
        refine ⟨by simp, ?_⟩
        intro y h
        simp at h

theorem getXpubWalk_cached (cache : List (Path × Path)) (q v : Path)
    (h : assocFind cache q = some v) :
    getXpubWalk cache q.reverse [] = (some v, q, []) := by
  cases hq : q.reverse with
  | nil =>
    have hq0 : q = [] := by
      have h2 := congrArg List.reverse hq
      simpa using h2
    subst hq0
    simp [getXpubWalk, h]
  | cons c rest =>
    have hcr : (c :: rest).reverse = q := by
      rw [← hq, List.reverse_reverse]
    unfold getXpubWalk
    rw [hcr, h]

/-- A path already cached is returned unchanged without touching the
master key. -/
theorem get_bip32_xpub_hit (st : KeyState) (q v : Path)
    (h : assocFind st.m_cached_bip32_xpubs q = some v) :
    get_bip32_xpub st q = some (v, st, false) := by
  unfold get_bip32_xpub
  rw [getXpubWalk_cached _ _ _ h]
  simp [get_bip32_xpub_core]

theorem cache_ext_key_finds (cache : List (Path × Path)) (p : Path) (k : ExtKey)
    (r : Path × List (Path × Path)) (h : cache_ext_key cache p (some k) = some r) :
    r.1 = serializeXpub k ∧ assocFind r.2 p = some (serializeXpub k) := by
  simp only [cache_ext_key] at h
  cases hcb : cache_bip32_xpub cache p (serializeXpub k) with
  | none =>
    rw [hcb] at h
    simp at h
  | some r' =>
    rw [hcb] at h
    simp only [Option.map_some'] at h
    injection h with h'
    subst h'
    exact ⟨rfl, cache_bip32_xpub_find _ _ _ _ hcb⟩

/-- After a successful run of the get_bip32_xpub body, the requested path
is cached with the returned xpub (given the walk-loop facts about the
arguments). -/
theorem get_bip32_xpub_core_finds (st : KeyState) (q v : Path) (st1 : KeyState) (b : Bool)
    (hit : Option Path) (pp cc : Path)
    (hcat : pp ++ cc = q)
    (hhit : ∀ x, hit = some x → assocFind st.m_cached_bip32_xpubs pp = some x)
    (h : get_bip32_xpub_core st q hit pp cc = some (v, st1, b)) :
    assocFind st1.m_cached_bip32_xpubs q = some v := by
  unfold get_bip32_xpub_core at h
  by_cases hc1 : hit.isSome = true ∧ cc = []
  · rw [if_pos hc1] at h
    obtain ⟨x, hx⟩ := Option.isSome_iff_exists.mp hc1.1
    subst hx
    simp only [Option.map_some'] at h
    injection h with h'
    injection h' with hxv h'
    injection h' with hst hb
    subst hxv
    subst hst
    have hppq : pp = q := by
      rw [hc1.2] at hcat
      simpa using hcat
    rw [← hppq]
    exact hhit _ rfl
  · rw [if_neg hc1] at h
    by_cases hq : q = []
    · rw [if_pos hq] at h
      cases hce : cache_ext_key st.m_cached_bip32_xpubs [] st.m_master_key with
      | none =>
        rw [hce] at h
        simp at h
      | some r =>
        rw [hce] at h
        simp only [Option.map_some'] at h
        injection h with h'
        injection h' with hv h'
        injection h' with hst hb
        cases hm : st.m_master_key with
        | none =>
          rw [hm] at hce
          simp [cache_ext_key] at hce
        | some k =>
          rw [hm] at hce
          obtain ⟨hr1, hr2⟩ := cache_ext_key_finds _ _ _ _ hce
          subst hst
          show assocFind r.2 q = some v
          rw [hq, hr2, ← hr1, hv]
    · rw [if_neg hq] at h
      split at h
      next => simp at h
      next pk cache1 used_master heq =>
        split at h
        next => simp at h
        next root_key hroot =>
          by_cases hcc : cc = []
          · rw [if_pos hcc] at h
            injection h with h'
            injection h' with hv h'
            injection h' with hst hb
            split at heq
            next hcond =>
              split at heq
              next =>
                simp at heq
              next m hm =>
                cases hce : cache_ext_key st.m_cached_bip32_xpubs pp
                    (some (derivePub m pp)) with
                | none =>
                  rw [hce] at heq
                  simp at heq
                | some r =>
                  rw [hce] at heq
                  simp only [Option.map_some'] at heq
                  injection heq with heq'
                  injection heq' with hpk heq'
                  injection heq' with hcache1 hused
                  obtain ⟨hr1, hr2⟩ := cache_ext_key_finds _ _ _ _ hce
                  rw [← hpk] at hroot
                  have hrk : root_key = derivePub m pp := by
                    injection hroot with hroot'
                    exact hroot'.symm
                  have hppq : pp = q := by
                    rw [hcc] at hcat
                    simpa using hcat
                  subst hst
                  show assocFind cache1 q = some v
                  rw [← hcache1, ← hppq, hr2, ← hv, hrk, ← hr1]
            next hcond =>
              have hhitnone : hit = none := by
                cases hx : hit with
                | none => rfl
                | some x => exact absurd ⟨by rw [hx]; rfl, hcc⟩ hc1
              have hpp : pp = [] := by
                by_contra hne
                exact hcond ⟨hne, hhitnone⟩
              have hqq : q = [] := by
                rw [← hcat, hpp, hcc]
                rfl
              exact absurd hqq hq
          · rw [if_neg hcc] at h
            cases hce : cache_ext_key cache1 q (some (derivePub root_key cc)) with
            | none =>
              rw [hce] at h
              simp at h
            | some r =>
              rw [hce] at h
              simp only [Option.map_some'] at h
              injection h with h'
              injection h' with hv h'
              injection h' with hst hb
              obtain ⟨hr1, hr2⟩ := cache_ext_key_finds _ _ _ _ hce
              subst hst
              show assocFind r.2 q = some v
              rw [hr2, ← hr1, hv]

/-- After a successful get_bip32_xpub, the requested path is cached with
the returned xpub. -/
theorem get_bip32_xpub_finds (st : KeyState) (q v : Path) (st1 : KeyState) (b : Bool)
    (h : get_bip32_xpub st q = some (v, st1, b)) :
    assocFind st1.m_cached_bip32_xpubs q = some v := by
  unfold get_bip32_xpub at h
  refine get_bip32_xpub_core_finds st q v st1 b _ _ _ ?_ ?_ h
  · have hcat := (getXpubWalk_eq st.m_cached_bip32_xpubs q.reverse []).1
    simpa using hcat
  · intro x hx
    exact (getXpubWalk_eq st.m_cached_bip32_xpubs q.reverse []).2 x hx

/-- Repeated calls return the same xpub: a second call finds the path in
the cache and changes nothing. -/
theorem get_bip32_xpub_stable (st : KeyState) (q v : Path) (st1 : KeyState) (b : Bool)
    (h : get_bip32_xpub st q = some (v, st1, b)) :
    get_bip32_xpub st1 q = some (v, st1, false) :=
  get_bip32_xpub_hit st1 q v (get_bip32_xpub_finds st q v st1 b h)

/-- C7: inserting a path that is already cached aborts when the new xpub
differs and leaves the cache unchanged when it is equal; consequently
repeated get_bip32_xpub calls on the same path return identical values
and leave the state unchanged. -/
theorem cache_conflict_fatal (c : List (Path × String)) (p : Path) (x y : String)
    (r : Bool × List (Path × String)) (h : cache_bip32_xpub c p x = some r) :
    (y ≠ x → cache_bip32_xpub r.2 p y = none)
    ∧ cache_bip32_xpub r.2 p x = some (false, r.2)
    ∧ ∀ (st : KeyState) (q v : Path) (st1 : KeyState) (b : Bool),
        get_bip32_xpub st q = some (v, st1, b) → get_bip32_xpub st1 q = some (v, st1, false) := by
  have hf := cache_bip32_xpub_find c p x r h
  refine ⟨?_, ?_, fun st q v st1 b hg => get_bip32_xpub_stable st q v st1 b hg⟩
  · intro hy
    unfold cache_bip32_xpub
    rw [hf]
    simp [Ne.symm hy]
  · unfold cache_bip32_xpub
    rw [hf]
    simp

/-- Witness for C7 at a concrete cache and duplicate insertion. -/
theorem cache_conflict_fatal_witness :
    cache_bip32_xpub [([1], "xpubA")] [1] "xpubB" = none :=
  (cache_conflict_fatal [] [1] "xpubA" "xpubB" (true, [([1], "xpubA")]) rfl).1
    (by decide)

/-! ## C5: the S5 derivation scenario -/

/-- C5 counterexample: after the two S5 calls (both of which succeed),
the master path `[]` is not in the cache, so the cache does not contain
the four claimed paths. -/
theorem s5_counterexample :
    ((get_bip32_xpub s5_state0 s5_path1).bind fun r1 =>
        (get_bip32_xpub r1.2.1 s5_path2).map fun r2 =>
          (assocFind r2.2.1.m_cached_bip32_xpubs ([] : Path)).isSome)
      = some false := by decide

/-- C5 (amended): both S5 calls succeed; the first derives from the
master key and caches the hardened parent `[84h,0h,0h]` and the full
path; the second finds the cached parent and derives from it without
using the master key; afterwards the cache holds exactly the three paths
`[84h,0h,0h]`, `[84h,0h,0h,0,5]` and `[84h,0h,0h,0,6]`. -/
theorem s5_scenario :
    get_bip32_xpub s5_state0 s5_path1
      = some (s5_path1, ⟨some [], [(s5_parent, s5_parent), (s5_path1, s5_path1)]⟩, true)
    ∧ get_bip32_xpub ⟨some [], [(s5_parent, s5_parent), (s5_path1, s5_path1)]⟩ s5_path2
      = some (s5_path2,
          ⟨some [], [(s5_parent, s5_parent), (s5_path1, s5_path1), (s5_path2, s5_path2)]⟩,
          false) := by decide

/-! ## C1: the liquid fee invariant of get_details -/

theorem claimInputSum_cons (policy : String) (i : TxInputJson) (rest : List TxInputJson) :
    claimInputSum policy (i :: rest)
      = (if i.error = "" ∧ i.asset_id = policy then (i.satoshi : Int) else 0)
          + claimInputSum policy rest := by
  by_cases hp : i.error = "" ∧ i.asset_id = policy <;> simp [claimInputSum, hp]

theorem claimOutputSum_cons (policy : String) (o : TxOutputJson) (rest : List TxOutputJson) :
    claimOutputSum policy (o :: rest)
      = (if o.asset_id = policy ∧ o.scriptpubkey ≠ "" then (o.satoshi : Int) else 0)
          + claimOutputSum policy rest := by
  by_cases hp : o.asset_id = policy ∧ o.scriptpubkey ≠ "" <;> simp [claimOutputSum, hp]

theorem claimFeeSum_cons (policy : String) (o : TxOutputJson) (rest : List TxOutputJson) :
    claimFeeSum policy (o :: rest)
      = (if o.asset_id = policy ∧ o.scriptpubkey = "" then (o.satoshi : Int) else 0)
          + claimFeeSum policy rest := by
  by_cases hp : o.asset_id = policy ∧ o.scriptpubkey = "" <;> simp [claimFeeSum, hp]

theorem sumInputs_fold_no_error (policy : String) (inputs : List TxInputJson) :
    ∀ acc : Int × String × Bool, (∀ i ∈ inputs, i.error = "") →
      inputs.foldl (sumInputsStep true policy) acc
        = (acc.1 + claimInputSum policy inputs, acc.2.1, acc.2.2) := by
  induction inputs with
  | nil =>
    intro acc h
    simp [claimInputSum]
  | cons i rest ih =>
    intro acc h
    have hi : i.error = "" := h i (List.mem_cons_self i rest)
    rw [List.foldl_cons, ih _ (fun j hj => h j (List.mem_cons_of_mem _ hj)),
      claimInputSum_cons]
    unfold sumInputsStep
    by_cases ha : i.asset_id = policy <;>
      simp [hi, ha, add_assoc]

theorem sumOutputsStep_eval (policy : String) (acc : Int × Int) (o : TxOutputJson) :
    sumOutputsStep true policy acc o
      = if o.asset_id = policy then
          if o.scriptpubkey = "" then (acc.1, acc.2 + o.satoshi)
          else (acc.1 - o.satoshi, acc.2)
        else acc := by
  unfold sumOutputsStep
  by_cases ha : o.asset_id = policy <;> by_cases hs : o.scriptpubkey = "" <;> simp [ha, hs]

theorem sumOutputs_fold (policy : String) (outputs : List TxOutputJson) :
    ∀ s0 f0 : Int,
      outputs.foldl (sumOutputsStep true policy) (s0, f0)
        = (s0 - claimOutputSum policy outputs, f0 + claimFeeSum policy outputs) := by
  induction outputs with
  | nil =>
    intro s0 f0
    simp [claimOutputSum, claimFeeSum]
  | cons o rest ih =>
    intro s0 f0
    rw [List.foldl_cons, sumOutputsStep_eval]
    by_cases ha : o.asset_id = policy
    · by_cases hs : o.scriptpubkey = ""
      · rw [if_pos ha, if_pos hs, ih,
          claimOutputSum_cons, claimFeeSum_cons,
          if_neg (fun hh : o.asset_id = policy ∧ o.scriptpubkey ≠ "" => hh.2 hs),
          if_pos ⟨ha, hs⟩, Prod.mk.injEq]
        constructor <;> ring
      · rw [if_pos ha, if_neg hs, ih,
          claimOutputSum_cons, claimFeeSum_cons,
          if_pos ⟨ha, hs⟩,
          if_neg (fun hh : o.asset_id = policy ∧ o.scriptpubkey = "" => hs hh.2),
          Prod.mk.injEq]
        constructor <;> ring
    · rw [if_neg ha, ih, claimOutputSum_cons, claimFeeSum_cons,
        if_neg (fun hh : o.asset_id = policy ∧ o.scriptpubkey ≠ "" => ha hh.1),
        if_neg (fun hh : o.asset_id = policy ∧ o.scriptpubkey = "" => ha hh.1),
        Prod.mk.injEq]
      constructor <;> ring

theorem c1_inputs_no_nonskipped_error_elim (policy : String) (inputs : List TxInputJson)
    (outputs : List TxOutputJson) (h : ∀ i ∈ inputs, i.error = "") :
    get_details_fee_check true policy inputs outputs
      = if claimInputSum policy inputs - claimOutputSum policy outputs
            = claimFeeSum policy outputs
        then some (claimFeeSum policy outputs, none) else none := by
  unfold get_details_fee_check sumInputs sumOutputs
  rw [sumInputs_fold_no_error policy inputs _ h]
  simp only [zero_add]
  rw [sumOutputs_fold]
  by_cases heq : claimInputSum policy inputs - claimOutputSum policy outputs
      = claimFeeSum policy outputs <;>
    simp [heq]

/-- C1 (amended): on liquid, when no input carries an error, a successful
get_details implies that the policy-asset input sum minus the policy-asset
non-fee output sum equals the empty-script fee output sum; and when that
equality fails (still with no input error), get_details aborts on its
fatal assertion. (The source tolerates the imbalance whenever any input
records an error, whether or not that input is skipped for signing.) -/
theorem get_details_fee_invariant (policy : String) (inputs : List TxInputJson)
    (outputs : List TxOutputJson) :
    (get_details_fee_check true policy inputs outputs ≠ none →
        (∀ i ∈ inputs, i.error = "") →
        claimInputSum policy inputs - claimOutputSum policy outputs
          = claimFeeSum policy outputs)
    ∧ ((∀ i ∈ inputs, i.error = "") →
        claimInputSum policy inputs - claimOutputSum policy outputs
          ≠ claimFeeSum policy outputs →
        get_details_fee_check true policy inputs outputs = none) := by
  constructor
  · intro hne h
    by_contra hneq
    rw [c1_inputs_no_nonskipped_error_elim policy inputs outputs h] at hne
    simp [hneq] at hne
  · intro h hneq
    rw [c1_inputs_no_nonskipped_error_elim policy inputs outputs h]
    simp [hneq]

/-- C1 counterexample: a liquid PSET whose only input records an unblind
error and is skipped for signing. get_details succeeds (fee 7, no
top-level error) although the input/output sums differ by 7 and no error
was recorded on an input that is not being skipped — contradicting both
halves of the claim as stated. -/
theorem c1_counterexample :
    get_details_fee_check true "p" [⟨"failed to unblind utxo", true, "p", 0⟩] [⟨"p", 7, ""⟩]
      = some (7, none)
    ∧ ([⟨"failed to unblind utxo", true, "p", 0⟩].all fun i : TxInputJson =>
        !(decide (i.error ≠ "") && !i.skip_signing)) = true
    ∧ claimInputSum "p" [⟨"failed to unblind utxo", true, "p", 0⟩]
        - claimOutputSum "p" [⟨"p", 7, ""⟩] ≠ claimFeeSum "p" [⟨"p", 7, ""⟩] := by
  refine ⟨by decide, by decide, by decide⟩

/-- Witness for C1 at a concrete balanced liquid transaction. -/
theorem get_details_fee_invariant_witness :
    claimInputSum "p" [⟨"", false, "p", 5⟩]
        - claimOutputSum "p" [⟨"p", 2, "aa"⟩, ⟨"p", 3, ""⟩]
      = claimFeeSum "p" [⟨"p", 2, "aa"⟩, ⟨"p", 3, ""⟩] :=
  (get_details_fee_invariant "p" [⟨"", false, "p", 5⟩]
      [⟨"p", 2, "aa"⟩, ⟨"p", 3, ""⟩]).1 (by decide) (by decide)


/-! ## C3: non-wallet input handling -/

theorem nonwallet_nonliquid_eval (sat : Nat) (inp : PsbtInputModel) :
    nonwallet_input_to_json false sat inp
      = Except.ok ⟨true, some sat, none, none, none, "",
          assocFind inp.psbt_fields in_redeem_script⟩ := rfl

theorem nonwallet_liquid_noamount_eval (sat : Nat) (inp : PsbtInputModel)
    (ha : inp.has_amount = false) :
    nonwallet_input_to_json true sat inp
      = Except.ok ⟨true, none, none, none, none, "failed to unblind utxo",
          assocFind inp.psbt_fields in_redeem_script⟩ := by
  unfold nonwallet_input_to_json
  rw [if_neg (by simp), if_neg (by simp [ha])]

theorem nonwallet_liquid_amount_eval (sat : Nat) (inp : PsbtInputModel)
    (ha : inp.has_amount = true) :
    nonwallet_input_to_json true sat inp
      = (match assocFind inp.pset_fields in_explicit_asset with
        | none => Except.error "asset_id not found"
        | some a =>
          match assocFind inp.pset_fields in_value_proof with
          | none => Except.error "value_blind_proof not found"
          | some vp =>
            match assocFind inp.pset_fields in_asset_proof with
            | none => Except.error "asset_blind_proof not found"
            | some ap =>
              Except.ok ⟨true, some inp.amount, some a.reverse, some vp, some ap, "",
                assocFind inp.psbt_fields in_redeem_script⟩) := by
  unfold nonwallet_input_to_json set_pset_field
  rw [if_neg (by simp), if_pos ha]
  cases assocFind inp.pset_fields in_explicit_asset <;>
    cases assocFind inp.pset_fields in_value_proof <;>
      cases assocFind inp.pset_fields in_asset_proof <;>
        rfl

theorem sumInputsStep_use_error (policy : String) (acc : Int × String × Bool)
    (i : TxInputJson) :
    (sumInputsStep true policy acc i).2.2
      = (acc.2.2 || (decide (i.error ≠ "") && !i.skip_signing)) := by
  unfold sumInputsStep
  by_cases he : i.error ≠ "" <;> by_cases ha : i.asset_id = policy <;> simp [he, ha]

theorem sumInputs_use_error_fold (policy : String) (inputs : List TxInputJson) :
    ∀ acc : Int × String × Bool,
      (inputs.foldl (sumInputsStep true policy) acc).2.2
        = (acc.2.2 || inputs.any fun i => decide (i.error ≠ "") && !i.skip_signing) := by
  induction inputs with
  | nil =>
    intro acc
    simp
  | cons i rest ih =>
    intro acc
    rw [List.foldl_cons, ih, List.any_cons, sumInputsStep_use_error, Bool.or_assoc]

/-- C3 (amended): every non-wallet input gets `skip_signing = true`; on
liquid the input is marked `error = "failed to unblind utxo"` (with the
call succeeding) exactly when it lacks `has_amount`; when `has_amount` is
present but the explicit-asset (0x13), value-proof (0x12) or asset-proof
(0x14) PSET field is missing, the whole call fails with a user_error
instead; and a recorded input error is elevated to a top-level error
exactly when some input carrying an error has `skip_signing` false. -/
theorem nonwallet_input_spec (m_is_liquid : Bool) (sat : Nat) (inp : PsbtInputModel) :
    (∀ u, nonwallet_input_to_json m_is_liquid sat inp = Except.ok u → u.skip_signing = true)
    ∧ (m_is_liquid = true →
        ((∃ u, nonwallet_input_to_json m_is_liquid sat inp = Except.ok u
            ∧ u.error = "failed to unblind utxo") ↔ inp.has_amount = false))
    ∧ (m_is_liquid = true → inp.has_amount = true →
        (assocFind inp.pset_fields in_explicit_asset = none
          ∨ assocFind inp.pset_fields in_value_proof = none
          ∨ assocFind inp.pset_fields in_asset_proof = none) →
        ∃ msg, nonwallet_input_to_json m_is_liquid sat inp = Except.error msg)
    ∧ ∀ (policy : String) (inputs : List TxInputJson),
        ((sumInputs true policy inputs).2.2 = true
          ↔ ∃ i ∈ inputs, i.error ≠ "" ∧ i.skip_signing = false) := by
  refine ⟨?_, ?_, ?_, ?_⟩
  · intro u hu
    cases hl : m_is_liquid with
    | false =>
      rw [hl, nonwallet_nonliquid_eval] at hu
      injection hu with hu'
      rw [← hu']
    | true =>
      rw [hl] at hu
      cases ha : inp.has_amount with
      | false =>
        rw [nonwallet_liquid_noamount_eval sat inp ha] at hu
        injection hu with hu'
        rw [← hu']
      | true =>
        rw [nonwallet_liquid_amount_eval sat inp ha] at hu
        cases h1 : assocFind inp.pset_fields in_explicit_asset with
        | none =>
          rw [h1] at hu
          simp at hu
        | some a =>
          rw [h1] at hu
          cases h2 : assocFind inp.pset_fields in_value_proof with
          | none =>
            rw [h2] at hu
            simp at hu
          | some vp =>
            rw [h2] at hu
            cases h3 : assocFind inp.pset_fields in_asset_proof with
            | none =>
              rw [h3] at hu
              simp at hu
            | some ap =>
              rw [h3] at hu
              injection hu with hu'
              rw [← hu']
  · intro hl
    subst hl
    constructor
    · rintro ⟨u, hu, herr⟩
      cases ha : inp.has_amount with
      | false => rfl
      | true =>
        rw [nonwallet_liquid_amount_eval sat inp ha] at hu
        exfalso
        cases h1 : assocFind inp.pset_fields in_explicit_asset with
        | none =>
          rw [h1] at hu
          simp at hu
        | some a =>
          rw [h1] at hu
          cases h2 : assocFind inp.pset_fields in_value_proof with
          | none =>
            rw [h2] at hu
            simp at hu
          | some vp =>
            rw [h2] at hu
            cases h3 : assocFind inp.pset_fields in_asset_proof with
            | none =>
              rw [h3] at hu
              simp at hu
            | some ap =>
              rw [h3] at hu
              injection hu with hu'
              rw [← hu'] at herr
              simp at herr
    · intro ha
      exact ⟨_, nonwallet_liquid_noamount_eval sat inp ha, rfl⟩
  · intro hl ha hmiss
    subst hl
    rw [nonwallet_liquid_amount_eval sat inp ha]
    cases h1 : assocFind inp.pset_fields in_explicit_asset with
    | none => exact ⟨"asset_id not found", rfl⟩
    | some a =>
      cases h2 : assocFind inp.pset_fields in_value_proof with
      | none => exact ⟨"value_blind_proof not found", rfl⟩
      | some vp =>
        cases h3 : assocFind inp.pset_fields in_asset_proof with
        | none => exact ⟨"asset_blind_proof not found", rfl⟩
        | some ap =>
          rcases hmiss with hm | hm | hm
          · rw [h1] at hm
            exact absurd hm (by simp)
          · rw [h2] at hm
            exact absurd hm (by simp)
          · rw [h3] at hm
            exact absurd hm (by simp)
  · intro policy inputs
    unfold sumInputs
    rw [sumInputs_use_error_fold]
    simp [List.any_eq_true]

/-- C3 counterexample: a liquid non-wallet input with `has_amount` set but
no PSET fields. The claim says the input is marked `error = "failed to
unblind utxo"` and the call succeeds; the source instead throws a
user_error, so the call fails. -/
theorem c3_counterexample :
    nonwallet_input_to_json true 5 ⟨true, 5, [], []⟩ = Except.error "asset_id not found"
    ∧ (nonwallet_input_to_json true 5 ⟨true, 5, [], []⟩).toOption = none := by
  refine ⟨rfl, rfl⟩

/-- Witness for C3: a liquid non-wallet input without `has_amount` is
marked with the unblind error while the call succeeds. -/
theorem nonwallet_input_spec_witness :
    ∃ u, nonwallet_input_to_json true 5 ⟨false, 0, [], []⟩ = Except.ok u
      ∧ u.error = "failed to unblind utxo" :=
  ((nonwallet_input_spec true 5 ⟨false, 0, [], []⟩).2.1 rfl).mpr rfl


/-! ## C2: multisig change heuristic -/

theorem entryApp_nil (cur : Option (List Nat)) : entryApp cur [] = cur := by
  cases cur <;> simp [entryApp]

theorem entryApp_push (cur : Option (List Nat)) (n : Nat) (R : List Nat) :
    entryApp (some ((cur.getD []) ++ [n])) R = entryApp cur (n :: R) := by
  cases cur with
  | none => cases R <;> simp [entryApp]
  | some v => simp [entryApp]

theorem pushIdx_find (m : List (String × List Nat)) (a : String) (i : Nat) :
    ∀ b, assocFind (pushIdx m a i) b
      = if b = a then some (((assocFind m a).getD []) ++ [i]) else assocFind m b := by
  induction m with
  | nil =>
    intro b
    by_cases hb : b = a
    · subst hb
      simp [pushIdx, assocFind]
    · have hab : ¬a = b := fun h => hb h.symm
      simp [pushIdx, assocFind, hb, hab]
  | cons kv t ih =>
    intro b
    obtain ⟨k, v⟩ := kv
    unfold pushIdx
    by_cases hk : k = a
    · subst hk
      rw [if_pos rfl]
      by_cases hb : b = k
      · subst hb
        simp [assocFind]
      · have hkb : ¬k = b := fun h => hb h.symm
        simp [assocFind, hkb, hb]
    · rw [if_neg hk]
      by_cases hb : b = k
      · subst hb
        have hba : ¬b = a := hk
        simp [assocFind, hba]
      · have hkb : ¬k = b := fun h => hb h.symm
        simp only [assocFind, if_neg hkb, ih b]
        by_cases hba : b = a
        · rw [if_pos hba, if_pos hba]
          have hka : (if k = a then some v else assocFind t a) = assocFind t a := by
            rw [if_neg hk]
          rw [hka]
        · rw [if_neg hba, if_neg hba]

theorem assocFind_mem {κ α : Type} [DecidableEq κ] (m : List (κ × α)) (k : κ) (v : α)
    (h : assocFind m k = some v) : (k, v) ∈ m := by
  induction m with
  | nil => simp [assocFind] at h
  | cons kv t ih =>
    obtain ⟨k', v'⟩ := kv
    unfold assocFind at h
    by_cases hk : k' = k
    · subst hk
      rw [if_pos rfl] at h
      injection h with h'
      subst h'
      exact List.mem_cons_self _ _
    · rw [if_neg hk] at h
      exact List.mem_cons_of_mem _ (ih h)

theorem assocFind_of_nodup {κ α : Type} [DecidableEq κ] (m : List (κ × α))
    (hnd : (m.map Prod.fst).Nodup) (k : κ) (v : α) (h : (k, v) ∈ m) :
    assocFind m k = some v := by
  induction m with
  | nil => simp at h
  | cons kv t ih =>
    obtain ⟨k', v'⟩ := kv
    rw [List.map_cons] at hnd
    have hnd' := List.nodup_cons.mp hnd
    rcases List.mem_cons.mp h with heq | hmem
    · injection heq with h1 h2
      subst h1
      subst h2
      simp [assocFind]
    · have hk : ¬k' = k := by
        intro hkk
        subst hkk
        exact hnd'.1 (List.mem_map.mpr ⟨(k', v), hmem, rfl⟩)
      rw [show assocFind ((k', v') :: t) k = assocFind t k from by simp [assocFind, hk]]
      exact ih hnd'.2 hmem

theorem pushIdx_keys (m : List (String × List Nat)) (a : String) (i : Nat) :
    (pushIdx m a i).map Prod.fst
      = if a ∈ m.map Prod.fst then m.map Prod.fst else m.map Prod.fst ++ [a] := by
  induction m with
  | nil => simp [pushIdx]
  | cons kv t ih =>
    obtain ⟨k, v⟩ := kv
    by_cases hk : k = a
    · subst hk
      simp [pushIdx]
    · have hak : ¬a = k := fun h => hk h.symm
      simp only [pushIdx, if_neg hk, List.map_cons]
      rw [ih]
      by_cases hm : a ∈ t.map Prod.fst
      · simp [hm, hak]
      · simp [hm, hak]

theorem collectStep_find (wa : List String) (acc : List (String × List Nat) × List String)
    (n : Nat) (o : OutputInfo) (a : String) :
    assocFind (collectStep wa acc (n, o)).1 a
      = if a ∈ wa ∧ o.skipped = false ∧ o.is_wallet = true ∧ o.asset_id = a
        then some (((assocFind acc.1 a).getD []) ++ [n])
        else assocFind acc.1 a := by
  show assocFind
      (if o.skipped then acc
        else if o.asset_id ∈ wa then
          if o.is_wallet then (pushIdx acc.1 o.asset_id n, acc.2)
          else (acc.1, if o.asset_id ∈ acc.2 then acc.2 else acc.2 ++ [o.asset_id])
        else acc).1 a = _
  by_cases hsk : o.skipped
  · rw [if_pos hsk]
    rw [if_neg (fun hh => by rw [hh.2.1] at hsk; exact Bool.false_ne_true hsk)]
  · rw [if_neg hsk]
    by_cases hwa : o.asset_id ∈ wa
    · rw [if_pos hwa]
      by_cases hw : o.is_wallet
      · rw [if_pos hw]
        show assocFind (pushIdx acc.1 o.asset_id n) a = _
        rw [pushIdx_find]
        by_cases hab : a = o.asset_id
        · subst hab
          rw [if_pos rfl, if_pos ⟨hwa, by simpa using hsk, hw, rfl⟩]
        · rw [if_neg hab, if_neg (fun hh => hab hh.2.2.2.symm)]
      · rw [if_neg hw]
        show assocFind acc.1 a = _
        rw [if_neg (fun hh : a ∈ wa ∧ o.skipped = false ∧ o.is_wallet = true ∧ o.asset_id = a =>
          hw hh.2.2.1)]
    · rw [if_neg hwa]
      rw [if_neg (fun hh : a ∈ wa ∧ o.skipped = false ∧ o.is_wallet = true ∧ o.asset_id = a =>
        hwa (hh.2.2.2 ▸ hh.1))]

theorem wIdxs_cons_eval (a : String) (o : OutputInfo) (rest : List OutputInfo) (n : Nat) :
    wIdxs a n (o :: rest)
      = if o.skipped = false ∧ o.is_wallet = true ∧ o.asset_id = a
        then n :: wIdxs a (n + 1) rest else wIdxs a (n + 1) rest := rfl

theorem collect_find (wa : List String) (outs : List OutputInfo) :
    ∀ (n : Nat) (acc : List (String × List Nat) × List String) (a : String),
      assocFind (List.foldl (collectStep wa) acc (List.enumFrom n outs)).1 a
        = entryApp (assocFind acc.1 a) (if a ∈ wa then wIdxs a n outs else []) := by
  induction outs with
  | nil =>
    intro n acc a
    by_cases ha : a ∈ wa <;> simp [List.enumFrom, wIdxs, entryApp_nil, ha]
  | cons o rest ih =>
    intro n acc a
    rw [show List.enumFrom n (o :: rest) = (n, o) :: List.enumFrom (n + 1) rest from rfl,
      List.foldl_cons, ih, collectStep_find]
    by_cases hcnd : a ∈ wa ∧ o.skipped = false ∧ o.is_wallet = true ∧ o.asset_id = a
    · rw [if_pos hcnd, if_pos hcnd.1, if_pos hcnd.1, wIdxs_cons_eval, if_pos hcnd.2,
        entryApp_push]
    · rw [if_neg hcnd]
      by_cases hwa : a ∈ wa
      · have hcond : ¬(o.skipped = false ∧ o.is_wallet = true ∧ o.asset_id = a) :=
          fun hh => hcnd ⟨hwa, hh⟩
        rw [if_pos hwa, if_pos hwa, wIdxs_cons_eval, if_neg hcond]
      · rw [if_neg hwa, if_neg hwa]

theorem collectStep_spent (wa : List String) (acc : List (String × List Nat) × List String)
    (n : Nat) (o : OutputInfo) :
    (collectStep wa acc (n, o)).2
      = if o.skipped = false ∧ o.asset_id ∈ wa ∧ o.is_wallet = false
        then (if o.asset_id ∈ acc.2 then acc.2 else acc.2 ++ [o.asset_id])
        else acc.2 := by
  show (if o.skipped then acc
      else if o.asset_id ∈ wa then
        if o.is_wallet then (pushIdx acc.1 o.asset_id n, acc.2)
        else (acc.1, if o.asset_id ∈ acc.2 then acc.2 else acc.2 ++ [o.asset_id])
      else acc).2 = _
  by_cases hsk : o.skipped
  · rw [if_pos hsk]
    rw [if_neg (fun hh => by rw [hh.1] at hsk; exact Bool.false_ne_true hsk)]
  · rw [if_neg hsk]
    by_cases hwa : o.asset_id ∈ wa
    · rw [if_pos hwa]
      by_cases hw : o.is_wallet
      · rw [if_pos hw]
        show acc.2 = _
        rw [if_neg (fun hh => by rw [hh.2.2] at hw; exact Bool.false_ne_true hw)]
      · rw [if_neg hw]
        show (if o.asset_id ∈ acc.2 then acc.2 else acc.2 ++ [o.asset_id]) = _
        have hcnd : o.skipped = false ∧ o.asset_id ∈ wa ∧ o.is_wallet = false :=
          ⟨by simpa using hsk, hwa, by simpa using hw⟩
        rw [if_pos hcnd]
    · rw [if_neg hwa]
      rw [if_neg (fun hh => hwa hh.2.1)]

theorem spentExternally_cons (o : OutputInfo) (rest : List OutputInfo) (a : String) :
    spentExternally (o :: rest) a
      = ((!o.skipped && !o.is_wallet && decide (o.asset_id = a)) || spentExternally rest a) := by
  simp [spentExternally]

theorem collect_spent (wa : List String) (outs : List OutputInfo) :
    ∀ (n : Nat) (acc : List (String × List Nat) × List String) (a : String),
      a ∈ (List.foldl (collectStep wa) acc (List.enumFrom n outs)).2
        ↔ a ∈ acc.2 ∨ (a ∈ wa ∧ spentExternally outs a = true) := by
  induction outs with
  | nil =>
    intro n acc a
    simp [List.enumFrom, spentExternally]
  | cons o rest ih =>
    intro n acc a
    rw [show List.enumFrom n (o :: rest) = (n, o) :: List.enumFrom (n + 1) rest from rfl,
      List.foldl_cons, ih, spentExternally_cons]
    have hstep := collectStep_spent wa acc n o
    by_cases hc : o.skipped = false ∧ o.asset_id ∈ wa ∧ o.is_wallet = false
    · rw [hstep, if_pos hc]
      by_cases hao : o.asset_id = a
      · have haw : a ∈ wa := hao ▸ hc.2.1
        have hpx : (!o.skipped && !o.is_wallet && decide (o.asset_id = a)) = true := by
          simp [hc.1, hc.2.2, hao]
        rw [hpx]
        by_cases hmem : o.asset_id ∈ acc.2
        · rw [if_pos hmem]
          have hamem : a ∈ acc.2 := hao ▸ hmem
          simp [hamem, haw]
        · rw [if_neg hmem]
          simp [List.mem_append, hao, haw]
      · have hpx : (!o.skipped && !o.is_wallet && decide (o.asset_id = a)) = false := by
          simp [hao]
        rw [hpx]
        by_cases hmem : o.asset_id ∈ acc.2
        · rw [if_pos hmem]
          simp
        · rw [if_neg hmem]
          have hao2 : ¬a = o.asset_id := fun h => hao h.symm
          simp [List.mem_append, hao2]
    · rw [hstep, if_neg hc]
      by_cases hao : o.asset_id = a
      · constructor
        · rintro (h | ⟨hwa, hrest⟩)
          · exact Or.inl h
          · exact Or.inr ⟨hwa, by simp [hrest]⟩
        · rintro (h | ⟨hwa, hx⟩)
          · exact Or.inl h
          · rcases (Bool.or_eq_true _ _).mp hx with hpx | hrest
            · exfalso
              have h1 : o.skipped = false := by
                rcases Bool.and_eq_true_iff.mp hpx with ⟨h12, -⟩
                rcases Bool.and_eq_true_iff.mp h12 with ⟨hh, -⟩
                simpa using hh
              have h2 : o.is_wallet = false := by
                rcases Bool.and_eq_true_iff.mp hpx with ⟨h12, -⟩
                rcases Bool.and_eq_true_iff.mp h12 with ⟨-, hh⟩
                simpa using hh
              exact hc ⟨h1, hao ▸ hwa, h2⟩
            · exact Or.inr ⟨hwa, hrest⟩
      · have hpx : (!o.skipped && !o.is_wallet && decide (o.asset_id = a)) = false := by
          simp [hao]
        rw [hpx]
        simp

theorem collect_keys_nodup (wa : List String) (outs : List OutputInfo) :
    ∀ (n : Nat) (acc : List (String × List Nat) × List String),
      (acc.1.map Prod.fst).Nodup →
      ((List.foldl (collectStep wa) acc (List.enumFrom n outs)).1.map Prod.fst).Nodup := by
  induction outs with
  | nil =>
    intro n acc h
    simpa [List.enumFrom] using h
  | cons o rest ih =>
    intro n acc h
    rw [show List.enumFrom n (o :: rest) = (n, o) :: List.enumFrom (n + 1) rest from rfl,
      List.foldl_cons]
    apply ih
    show ((if o.skipped then acc
        else if o.asset_id ∈ wa then
          if o.is_wallet then (pushIdx acc.1 o.asset_id n, acc.2)
          else (acc.1, if o.asset_id ∈ acc.2 then acc.2 else acc.2 ++ [o.asset_id])
        else acc).1.map Prod.fst).Nodup
    by_cases hsk : o.skipped
    · rw [if_pos hsk]
      exact h
    · rw [if_neg hsk]
      by_cases hwa : o.asset_id ∈ wa
      · rw [if_pos hwa]
        by_cases hw : o.is_wallet
        · rw [if_pos hw]
          show ((pushIdx acc.1 o.asset_id n).map Prod.fst).Nodup
          rw [pushIdx_keys]
          by_cases hm : o.asset_id ∈ acc.1.map Prod.fst
          · rw [if_pos hm]
            exact h
          · rw [if_neg hm]
            simp [List.nodup_append, h, hm]
        · rw [if_neg hw]
          exact h
      · rw [if_neg hwa]
        exact h

theorem wIdxs_mem_iff (a : String) (outs : List OutputInfo) : ∀ (n j : Nat),
    j ∈ wIdxs a n outs
      ↔ n ≤ j ∧ ∃ o, outs.get? (j - n) = some o
          ∧ o.skipped = false ∧ o.is_wallet = true ∧ o.asset_id = a := by
  induction outs with
  | nil =>
    intro n j
    simp [wIdxs]
  | cons o rest ih =>
    intro n j
    rw [wIdxs_cons_eval]
    by_cases hc : o.skipped = false ∧ o.is_wallet = true ∧ o.asset_id = a
    · rw [if_pos hc]
      constructor
      · intro hj
        rcases List.mem_cons.mp hj with rfl | hj'
        · exact ⟨le_refl j, o, by simp, hc.1, hc.2.1, hc.2.2⟩
        · obtain ⟨hle, o', ho', hP⟩ := (ih (n + 1) j).mp hj'
          refine ⟨by omega, o', ?_, hP⟩
          have hidx : j - n = (j - (n + 1)) + 1 := by omega
          rw [hidx]
          simpa using ho'
      · rintro ⟨hle, o', ho', h1, h2, h3⟩
        by_cases hj : j = n
        · exact hj ▸ List.mem_cons_self _ _
        · apply List.mem_cons_of_mem
          refine (ih (n + 1) j).mpr ⟨by omega, o', ?_, h1, h2, h3⟩
          have hidx : j - n = (j - (n + 1)) + 1 := by omega
          rw [hidx] at ho'
          simpa using ho'
    · rw [if_neg hc]
      constructor
      · intro hj
        obtain ⟨hle, o', ho', hP⟩ := (ih (n + 1) j).mp hj
        refine ⟨by omega, o', ?_, hP⟩
        have hidx : j - n = (j - (n + 1)) + 1 := by omega
        rw [hidx]
        simpa using ho'
      · rintro ⟨hle, o', ho', h1, h2, h3⟩
        by_cases hj : j = n
        · subst hj
          simp at ho'
          subst ho'
          exact absurd ⟨h1, h2, h3⟩ hc
        · refine (ih (n + 1) j).mpr ⟨by omega, o', ?_, h1, h2, h3⟩
          have hidx : j - n = (j - (n + 1)) + 1 := by omega
          rw [hidx] at ho'
          simpa using ho'

theorem wIdxs_head_lt (a : String) (outs : List OutputInfo) : ∀ (n j0 : Nat) (t : List Nat),
    wIdxs a n outs = j0 :: t → ∀ x ∈ t, j0 < x := by
  induction outs with
  | nil =>
    intro n j0 t heq
    simp [wIdxs] at heq
  | cons o rest ih =>
    intro n j0 t heq x hx
    rw [wIdxs_cons_eval] at heq
    by_cases hc : o.skipped = false ∧ o.is_wallet = true ∧ o.asset_id = a
    · rw [if_pos hc] at heq
      injection heq with h1 h2
      subst h1
      subst h2
      have hge := ((wIdxs_mem_iff a rest (n + 1) x).mp hx).1
      omega
    · rw [if_neg hc] at heq
      exact ih (n + 1) j0 t heq x hx

theorem setChangeAt_get_ne (l : List (OutputInfo × Option Bool)) :
    ∀ (i : Nat) (b : Bool) (j : Nat), j ≠ i → (setChangeAt l i b).get? j = l.get? j := by
  induction l with
  | nil =>
    intro i b j h
    rfl
  | cons o rest ih =>
    intro i b j h
    cases i with
    | zero =>
      cases j with
      | zero => exact absurd rfl h
      | succ j' => simp [setChangeAt]
    | succ i' =>
      cases j with
      | zero => simp [setChangeAt]
      | succ j' =>
        simp only [setChangeAt, List.get?_cons_succ]
        exact ih i' b j' (fun hh => h (by rw [hh]))

theorem setChangeAt_get_eq (l : List (OutputInfo × Option Bool)) :
    ∀ (i : Nat) (b : Bool),
      (setChangeAt l i b).get? i = (l.get? i).map fun o => (o.1, some b) := by
  induction l with
  | nil =>
    intro i b
    cases i <;> rfl
  | cons o rest ih =>
    intro i b
    cases i with
    | zero => simp [setChangeAt]
    | succ i' =>
      simp only [setChangeAt, List.get?_cons_succ]
      exact ih i' b

theorem applyFold_get_untouched (wa spent : List String)
    (es : List (String × List Nat)) :
    ∀ (outs0 : List (OutputInfo × Option Bool)) (j : Nat),
      (∀ e ∈ es, e.1 ∈ wa → e.2.head? ≠ some j) →
      (List.foldl (applyStep wa spent) outs0 es).get? j = outs0.get? j := by
  induction es with
  | nil =>
    intro outs0 j h
    rfl
  | cons e rest ih =>
    intro outs0 j h
    rw [List.foldl_cons, ih _ _ (fun e' he' => h e' (List.mem_cons_of_mem _ he'))]
    unfold applyStep
    by_cases hw : e.1 ∈ wa
    · rw [if_pos hw]
      cases he2 : e.2 with
      | nil => rfl
      | cons i t =>
        have hij : i ≠ j := by
          intro hh
          exact h e (List.mem_cons_self e rest) hw (by rw [he2, hh]; rfl)
        exact setChangeAt_get_ne _ _ _ _ (Ne.symm hij)
    · rw [if_neg hw]

theorem applyFold_get_written (wa spent : List String) (es : List (String × List Nat)) :
    ∀ (outs0 : List (OutputInfo × Option Bool)) (j : Nat) (b : Bool),
      (∀ e ∈ es, e.1 ∈ wa → e.2.head? = some j →
          (decide (e.1 ∈ spent) || decide (e.2.length > 1)) = b) →
      (∃ e ∈ es, e.1 ∈ wa ∧ e.2.head? = some j) →
      (List.foldl (applyStep wa spent) outs0 es).get? j
        = (outs0.get? j).map fun o => (o.1, some b) := by
  induction es with
  | nil =>
    intro outs0 j b hval hex
    rcases hex with ⟨e, he, -⟩
    exact absurd he (List.not_mem_nil e)
  | cons e rest ih =>
    intro outs0 j b hval hex
    rw [List.foldl_cons]
    by_cases hw : e.1 ∈ wa ∧ e.2.head? = some j
    · obtain ⟨i, t, he2⟩ : ∃ i t, e.2 = i :: t := by
        cases h2 : e.2 with
        | nil =>
          rw [h2] at hw
          simp at hw
        | cons i t => exact ⟨i, t, rfl⟩
      have hij : i = j := by
        rw [he2] at hw
        simpa using hw.2
      have hbval : (decide (e.1 ∈ spent) || decide (e.2.length > 1)) = b :=
        hval e (List.mem_cons_self e rest) hw.1 hw.2
      have happ : applyStep wa spent outs0 e = setChangeAt outs0 j b := by
        unfold applyStep
        rw [if_pos hw.1]
        rw [show (match e.2 with
            | [] => outs0
            | i :: rest =>
              setChangeAt outs0 i
                (decide (e.1 ∈ spent) || decide ((i :: rest).length > 1)))
            = setChangeAt outs0 i (decide (e.1 ∈ spent) || decide (e.2.length > 1)) from by
          rw [he2]]
        rw [hbval, hij]
      rw [happ]
      by_cases hrest : ∃ e' ∈ rest, e'.1 ∈ wa ∧ e'.2.head? = some j
      · rw [ih _ _ b (fun e' he' => hval e' (List.mem_cons_of_mem _ he')) hrest,
          setChangeAt_get_eq]
        cases outs0.get? j <;> rfl
      · have hnone : ∀ e' ∈ rest, e'.1 ∈ wa → e'.2.head? ≠ some j := by
          intro e' he' hw' hh
          exact hrest ⟨e', he', hw', hh⟩
        rw [applyFold_get_untouched wa spent rest _ j hnone, setChangeAt_get_eq]
    · have happ : (applyStep wa spent outs0 e).get? j = outs0.get? j := by
        unfold applyStep
        by_cases hw1 : e.1 ∈ wa
        · rw [if_pos hw1]
          cases h2 : e.2 with
          | nil => rfl
          | cons i t =>
            have hij : i ≠ j := by
              intro hh
              exact hw ⟨hw1, by rw [h2, hh]; rfl⟩
            exact setChangeAt_get_ne _ _ _ _ (Ne.symm hij)
        · rw [if_neg hw1]
      have hex' : ∃ e' ∈ rest, e'.1 ∈ wa ∧ e'.2.head? = some j := by
        rcases hex with ⟨e', he', hcond'⟩
        rcases List.mem_cons.mp he' with rfl | hmem
        · exact absurd hcond' hw
        · exact ⟨e', hmem, hcond'⟩
      rw [ih _ _ b (fun e' he' => hval e' (List.mem_cons_of_mem _ he')) hex', happ]


/-- C2 (amended): in the multisig (non-electrum) enrichment, consider an
asset the wallet contributed an input to that is sent externally (appears
on a non-skipped non-wallet output) or has at least two non-skipped wallet
outputs, and that has at least one non-skipped wallet output. Then the
earliest such wallet output reads `is_change = true` and every other such
wallet output reads `is_change = false` (its key is never set); the
wallet-output index list is exactly the non-skipped wallet outputs
carrying the asset. Outputs skipped before change detection (the liquid
fee output, and wallet outputs that failed to unblind) do not
participate. -/
theorem change_heuristic_spec (wa : List String) (outs : List OutputInfo) (a : String)
    (ha : a ∈ wa)
    (hcond : spentExternally outs a = true ∨ 2 ≤ (wIdxs a 0 outs).length)
    (hne : wIdxs a 0 outs ≠ []) :
    ∃ j0 t, wIdxs a 0 outs = j0 :: t
      ∧ effectiveChange (applyChangeHeuristic wa outs) j0 = true
      ∧ (∀ j ∈ t, j0 < j ∧ effectiveChange (applyChangeHeuristic wa outs) j = false)
      ∧ ∀ j, (j ∈ wIdxs a 0 outs
          ↔ ∃ o, outs.get? j = some o ∧ o.skipped = false ∧ o.is_wallet = true
              ∧ o.asset_id = a) := by
  obtain ⟨j0, t, hW⟩ : ∃ j0 t, wIdxs a 0 outs = j0 :: t := by
    cases hWc : wIdxs a 0 outs with
    | nil => exact absurd hWc hne
    | cons j0 t => exact ⟨j0, t, rfl⟩
  have hfind : assocFind (collectAssetOutputs wa outs).1 a = some (wIdxs a 0 outs) := by
    unfold collectAssetOutputs
    rw [show outs.enum = List.enumFrom 0 outs from rfl, collect_find,
      show assocFind (([], []) : List (String × List Nat) × List String).1 a = none from rfl,
      if_pos ha, hW]
    rfl
  have hnd : ((collectAssetOutputs wa outs).1.map Prod.fst).Nodup := by
    unfold collectAssetOutputs
    rw [show outs.enum = List.enumFrom 0 outs from rfl]
    exact collect_keys_nodup wa outs 0 ([], []) (by simp)
  have hspent : ∀ x : String, x ∈ (collectAssetOutputs wa outs).2
      ↔ (x ∈ wa ∧ spentExternally outs x = true) := by
    intro x
    unfold collectAssetOutputs
    rw [show outs.enum = List.enumFrom 0 outs from rfl, collect_spent]
    simp
  have hmem_inv : ∀ e ∈ (collectAssetOutputs wa outs).1,
      e.1 ∈ wa ∧ e.2 = wIdxs e.1 0 outs ∧ e.2 ≠ [] := by
    intro e he
    obtain ⟨k, v⟩ := e
    have hf : assocFind (collectAssetOutputs wa outs).1 k = some v :=
      assocFind_of_nodup _ hnd k v he
    rw [show (collectAssetOutputs wa outs).1
        = (List.foldl (collectStep wa) ([], []) (List.enumFrom 0 outs)).1 from rfl,
      collect_find,
      show assocFind (([], []) : List (String × List Nat) × List String).1 k = none from rfl]
      at hf
    by_cases hkw : k ∈ wa
    · rw [if_pos hkw] at hf
      cases hwx : wIdxs k 0 outs with
      | nil =>
        rw [hwx] at hf
        simp [entryApp] at hf
      | cons y ys =>
        rw [hwx, show entryApp none (y :: ys) = some (y :: ys) from rfl] at hf
        injection hf with hf'
        subst hf'
        exact ⟨hkw, rfl, by simp⟩
    · rw [if_neg hkw] at hf
      simp [entryApp] at hf
  have hwriter : ∀ e ∈ (collectAssetOutputs wa outs).1, ∀ j, e.2.head? = some j →
      j ∈ wIdxs a 0 outs → e.1 = a ∧ e.2 = wIdxs a 0 outs := by
    intro e he j hh hjW
    obtain ⟨hew, hev, -⟩ := hmem_inv e he
    have hjK : j ∈ wIdxs e.1 0 outs := by
      rw [← hev]
      cases hE : e.2 with
      | nil =>
        rw [hE] at hh
        simp at hh
      | cons y ys =>
        rw [hE] at hh
        have hyj : y = j := by simpa using hh
        rw [← hyj]
        exact List.mem_cons_self _ _
    obtain ⟨-, o1, ho1, hsk1, hw1, ha1⟩ := (wIdxs_mem_iff e.1 outs 0 j).mp hjK
    obtain ⟨-, o2, ho2, hsk2, hw2, ha2⟩ := (wIdxs_mem_iff a outs 0 j).mp hjW
    rw [ho1] at ho2
    injection ho2 with ho
    have hk : e.1 = a := by
      rw [← ha1, ho, ha2]
    exact ⟨hk, by rw [hev, hk]⟩
  have hval : ∀ e ∈ (collectAssetOutputs wa outs).1, e.1 ∈ wa → e.2.head? = some j0 →
      (decide (e.1 ∈ (collectAssetOutputs wa outs).2) || decide (e.2.length > 1)) = true := by
    intro e he hew hh
    have hj0W : j0 ∈ wIdxs a 0 outs := by
      rw [hW]
      exact List.mem_cons_self _ _
    obtain ⟨hk, hev⟩ := hwriter e he j0 hh hj0W
    rcases hcond with hs | hl
    · have hmem : e.1 ∈ (collectAssetOutputs wa outs).2 :=
        (hspent e.1).mpr ⟨by rw [hk]; exact ha, by rw [hk]; exact hs⟩
      simp [hmem]
    · have hlen : e.2.length > 1 := by
        rw [hev]
        omega
      simp [hlen]
  have hexists : ∃ e ∈ (collectAssetOutputs wa outs).1, e.1 ∈ wa ∧ e.2.head? = some j0 := by
    refine ⟨(a, wIdxs a 0 outs), assocFind_mem _ _ _ hfind, ha, ?_⟩
    rw [hW]
    rfl
  have happly : applyChangeHeuristic wa outs
      = List.foldl (applyStep wa (collectAssetOutputs wa outs).2)
          (outs.map fun o => (o, none)) (collectAssetOutputs wa outs).1 := rfl
  refine ⟨j0, t, hW, ?_, ?_, fun j => by simpa using wIdxs_mem_iff a outs 0 j⟩
  · have hj0W : j0 ∈ wIdxs a 0 outs := by
      rw [hW]
      exact List.mem_cons_self _ _
    obtain ⟨-, o0, ho0, -, -, -⟩ := (wIdxs_mem_iff a outs 0 j0).mp hj0W
    have hget := applyFold_get_written wa (collectAssetOutputs wa outs).2
      (collectAssetOutputs wa outs).1 (outs.map fun o => (o, none)) j0 true hval hexists
    have hfull : (applyChangeHeuristic wa outs).get? j0 = some (o0, some true) := by
      rw [happly, hget, List.get?_map, show outs.get? j0 = some o0 from by simpa using ho0]
      rfl
    unfold effectiveChange
    rw [hfull]
    rfl
  · intro j hj
    have hjW : j ∈ wIdxs a 0 outs := by
      rw [hW]
      exact List.mem_cons_of_mem _ hj
    have hlt : j0 < j := wIdxs_head_lt a outs 0 j0 t hW j hj
    refine ⟨hlt, ?_⟩
    have hnotouch : ∀ e ∈ (collectAssetOutputs wa outs).1, e.1 ∈ wa → e.2.head? ≠ some j := by
      intro e he hew hh
      obtain ⟨hk, hev⟩ := hwriter e he j hh hjW
      rw [hev, hW] at hh
      have hjj : j0 = j := by simpa using hh
      omega
    have hget := applyFold_get_untouched wa (collectAssetOutputs wa outs).2
      (collectAssetOutputs wa outs).1 (outs.map fun o => (o, none)) j hnotouch
    cases houts : outs.get? j with
    | none =>
      have hfull : (applyChangeHeuristic wa outs).get? j = none := by
        rw [happly, hget, List.get?_map, houts]
        rfl
      unfold effectiveChange
      rw [hfull]
    | some o =>
      have hfull : (applyChangeHeuristic wa outs).get? j = some (o, none) := by
        rw [happly, hget, List.get?_map, houts]
        rfl
      unfold effectiveChange
      rw [hfull]
      rfl

/-- C2 counterexample: the wallet funded asset `"a"`, which appears on a
non-wallet output, but there is no wallet output for it. The claim as
stated then demands exactly one wallet output with `is_change = true`,
which cannot hold: the heuristic marks nothing. -/
theorem c2_counterexample :
    ("a" ∈ ["a"]
        ∧ spentExternally [⟨"a", false, false⟩] "a" = true
        ∧ wIdxs "a" 0 [⟨"a", false, false⟩] = [])
    ∧ applyChangeHeuristic ["a"] [⟨"a", false, false⟩] = [(⟨"a", false, false⟩, none)] := by
  refine ⟨⟨by simp, rfl, rfl⟩, rfl⟩

/-- Witness for C2: two wallet outputs for the funded asset `"a"`. -/
theorem change_heuristic_spec_witness :
    ∃ j0 t, wIdxs "a" 0 ([⟨"a", true, false⟩, ⟨"a", true, false⟩] : List OutputInfo) = j0 :: t
      ∧ effectiveChange
          (applyChangeHeuristic ["a"] [⟨"a", true, false⟩, ⟨"a", true, false⟩]) j0 = true
      ∧ (∀ j ∈ t, j0 < j
          ∧ effectiveChange
              (applyChangeHeuristic ["a"] [⟨"a", true, false⟩, ⟨"a", true, false⟩]) j = false)
      ∧ ∀ j, (j ∈ wIdxs "a" 0 ([⟨"a", true, false⟩, ⟨"a", true, false⟩] : List OutputInfo)
          ↔ ∃ o, ([⟨"a", true, false⟩, ⟨"a", true, false⟩] : List OutputInfo).get? j = some o
              ∧ o.skipped = false ∧ o.is_wallet = true ∧ o.asset_id = "a") :=
  change_heuristic_spec ["a"] [⟨"a", true, false⟩, ⟨"a", true, false⟩] "a"
    (by simp) (Or.inr (by decide)) (by decide)


/-- Witness for C6: a cached proper non-hardened ancestor makes the xpub
available without a master key. -/
theorem has_bip32_xpub_spec_witness :
    has_bip32_xpub (none : Option ExtKey) [([1, 2], [5])] [1, 2, 3] = true :=
  (has_bip32_xpub_spec none [([1, 2], [5])] [1, 2, 3]).mpr
    (Or.inr ⟨[1, 2], [3], rfl, by decide, by decide⟩)

/-- Witness for C8: a concrete device without liquid support is rejected
on a liquid network. -/
theorem signer_liquid_check_spec_witness :
    signer_liquid_check true
        ⟨"software", true, true, true, true, liquid_support_level.none,
          ae_protocol_support_level.none⟩
      = Except.error "id_the_hardware_wallet_you_are" :=
  (signer_liquid_check_spec
      ⟨"software", true, true, true, true, liquid_support_level.none,
        ae_protocol_support_level.none⟩).1.mpr rfl


end green

